import Mathlib

/-!
Shallow embedding of the Dev-Events platform persistence layer:
`lib/mongodb.ts` (connection cache), `database/event.model.ts`
(Event schema pre-save hook with slug/date/time normalization) and the
Booking schema file (email validation and referential-integrity check).

JavaScript strings are modelled as Lean `String`/`List Char`; absent
(`undefined`) values as `Option`; thrown errors as `Except` error values.
JavaScript `\s` and `String.prototype.trim` whitespace is modelled with
`Char.isWhitespace`, and `toLowerCase` with `Char.toLower` (both agree with
JavaScript on ASCII, which is all the relevant code distinguishes).
-/

/- ------------------------------------------------------------------ -/
/- Character and string utilities shared by the models                 -/
/- ------------------------------------------------------------------ -/

/-- One decimal digit character, `digitChar k = '0' + k` for `k < 10`. -/
def digitChar (k : Nat) : Char := Char.ofNat (48 + k)

/-- Read a decimal digit: `some (value)` for `'0'..'9'`, `none` otherwise. -/
def readDigit (c : Char) : Option Nat :=
  if 48 ≤ c.toNat ∧ c.toNat ≤ 57 then some (c.toNat - 48) else none

/-- `readDigit` as a Bool test (membership in the `\d` class). -/
def isDigitChar (c : Char) : Bool := (readDigit c).isSome

/-- JavaScript `String.prototype.trim` on the character list: drop leading
and trailing whitespace. -/
def jsTrim (cs : List Char) : List Char :=
  ((cs.dropWhile Char.isWhitespace).reverse.dropWhile Char.isWhitespace).reverse

/-- JavaScript `trim()` on a `String`. -/
def jsTrimS (s : String) : String := String.mk (jsTrim s.data)

/-- JavaScript `String.prototype.toLowerCase` on the character list. -/
def jsLower (cs : List Char) : List Char := cs.map Char.toLower

/-- `String(n).padStart(2, "0")`, exact for `n < 100`. -/
def pad2c (n : Nat) : List Char := [digitChar (n / 10), digitChar (n % 10)]

/-- Three-digit zero-padded decimal rendering, exact for `n < 1000`. -/
def pad3c (n : Nat) : List Char :=
  [digitChar (n / 100), digitChar (n / 10 % 10), digitChar (n % 10)]

/-- Four-digit zero-padded decimal rendering, exact for `n < 10000`. -/
def pad4c (n : Nat) : List Char :=
  [digitChar (n / 1000), digitChar (n / 100 % 10), digitChar (n / 10 % 10),
   digitChar (n % 10)]

/-- Six-digit zero-padded decimal rendering, exact for `n < 1000000`. -/
def pad6c (n : Nat) : List Char :=
  [digitChar (n / 100000), digitChar (n / 10000 % 10), digitChar (n / 1000 % 10),
   digitChar (n / 100 % 10), digitChar (n / 10 % 10), digitChar (n % 10)]

/-- `parseInt(ds, 10)` on a list of digit characters. -/
def digitsVal (ds : List Char) : Nat :=
  ds.foldl (fun a c => 10 * a + (c.toNat - 48)) 0

/- ------------------------------------------------------------------ -/
/- lib/mongodb.ts : the connection cache (`connectToDatabase`)         -/
/- ------------------------------------------------------------------ -/

/-- `process.env.MONGODB_URI?.trim()` followed by the falsiness test
`if (!MONGODB_URI)` (lines 41-47): an absent variable, or one that trims
to the empty string, yields `none` (the ConfigError path). -/
def trimmedUri (env : Option String) : Option String :=
  match env with
  | none => none
  | some s =>
    let t := jsTrimS s
    if t = "" then none else some t

/-- The `globalThis.__mongoose` cache: a live-connection slot and an
in-flight-promise slot (promises are identified by `Nat` ids; handles by
`Nat` as well). -/
structure MongooseCache where
  conn : Option Nat
  promise : Option Nat
deriving DecidableEq

/-- Process-wide state surrounding the cache: the cache itself, a supply of
fresh promise ids, and a count of underlying `mongoose.connect` operations
started (used to state the deduplication property). -/
structure ConnWorld where
  cache : MongooseCache
  nextPromiseId : Nat
  connectCount : Nat
deriving DecidableEq

/-- Which awaited promise a suspended caller holds, and via which branch. -/
inductive AwaitPhase
  /-- entered through the cached-promise branch (lines 55-59) -/
  | existing (pid : Nat)
  /-- created the promise itself (lines 62-82) -/
  | creator (pid : Nat)
deriving DecidableEq

/-- Outcome of one `connectToDatabase` call's synchronous prefix (the code
up to its first `await`, which runs without interleaving on the
single-threaded event loop). -/
inductive CallPhase
  /-- threw the missing-`MONGODB_URI` error (lines 43-47) -/
  | configFailed
  /-- returned the cached live handle (lines 50-52) -/
  | returnedConn (h : Nat)
  /-- suspended awaiting a promise -/
  | awaiting (ph : AwaitPhase)
deriving DecidableEq

/-- Synchronous prefix of `connectToDatabase` (lines 40-82): check the URI,
then the live-handle slot, then the in-flight slot; otherwise start a new
connect operation and record its promise in the in-flight slot before
awaiting it. -/
def connectToDatabaseSync (env : Option String) (w : ConnWorld) :
    ConnWorld × CallPhase :=
  match trimmedUri env with
  | none => (w, .configFailed)
  | some _ =>
    match w.cache.conn with
    | some h => (w, .returnedConn h)
    | none =>
      match w.cache.promise with
      | some pid => (w, .awaiting (.existing pid))
      | none =>
        let pid := w.nextPromiseId
        ({ cache := { conn := w.cache.conn, promise := some pid },
           nextPromiseId := pid + 1,
           connectCount := w.connectCount + 1 },
         .awaiting (.creator pid))

/-- Result a resumed caller delivers to its own caller. -/
inductive ResumeResult
  | ok (h : Nat)
  | failed
deriving DecidableEq

/-- Resumption of a suspended `connectToDatabase` call once the awaited
promise settles. The branch that awaited a cached promise (lines 56-58)
stores the handle on success and propagates a rejection unchanged; the
creator branch (lines 81-88) stores the handle on success and on failure
clears the in-flight slot before rethrowing, leaving the live slot alone. -/
def connectToDatabaseResume (w : ConnWorld) (ph : AwaitPhase)
    (outcome : Except Unit Nat) : ConnWorld × ResumeResult :=
  match ph, outcome with
  | .existing _, .ok h =>
    ({ w with cache := { conn := some h, promise := w.cache.promise } }, .ok h)
  | .existing _, .error _ => (w, .failed)
  | .creator _, .ok h =>
    ({ w with cache := { conn := some h, promise := w.cache.promise } }, .ok h)
  | .creator _, .error _ =>
    ({ w with cache := { conn := w.cache.conn, promise := none } }, .failed)

/-- Run the synchronous prefixes of `n` concurrent callers back to back
(the event loop runs each prefix without interleaving), collecting the
phase each caller ends in. -/
def runSyncCalls (env : Option String) (w : ConnWorld) : Nat → ConnWorld × List CallPhase
  | 0 => (w, [])
  | n + 1 =>
    let (w1, ph) := connectToDatabaseSync env w
    let (w2, phs) := runSyncCalls env w1 n
    (w2, ph :: phs)

/- ------------------------------------------------------------------ -/
/- database/event.model.ts : slugify (lines 29-35)                     -/
/- ------------------------------------------------------------------ -/

/-- Membership in the character class `[a-z0-9]`. -/
def isSlugChar (c : Char) : Bool :=
  ('a' ≤ c && c ≤ 'z') || ('0' ≤ c && c ≤ '9')

/-- `.replace(/[^a-z0-9]+/g, "-")`: each maximal run of characters outside
`[a-z0-9]` becomes a single `'-'`. The flag records whether the previous
character belonged to a run already emitted as `'-'`. -/
def collapseRunsAux : Bool → List Char → List Char
  | _, [] => []
  | inRun, c :: rest =>
    if isSlugChar c then c :: collapseRunsAux false rest
    else if inRun then collapseRunsAux true rest
    else '-' :: collapseRunsAux true rest

/-- Replace every maximal non-`[a-z0-9]` run by one `'-'`. -/
def collapseRuns (cs : List Char) : List Char := collapseRunsAux false cs

/-- `.replace(/(^-|-$)/g, "")`: remove one leading and one trailing dash.
(The global regex matches at most once at each end.) -/
def dropLeadingDash : List Char → List Char
  | '-' :: rest => rest
  | cs => cs

/-- Remove one trailing dash if present. -/
def dropTrailingDash (cs : List Char) : List Char :=
  if cs.getLast? = some '-' then cs.dropLast else cs

/-- `slugify` (event.model.ts lines 29-35): lowercase, trim, collapse
non-`[a-z0-9]` runs to `'-'`, strip a leading/trailing `'-'`. -/
def slugify (value : String) : String :=
  String.mk (dropTrailingDash (dropLeadingDash (collapseRuns (jsTrim (jsLower value.data)))))

/- ------------------------------------------------------------------ -/
/- Booking model file : isValidEmail and the pre-save hook             -/
/- ------------------------------------------------------------------ -/

/-- The character class `[^\s@]` of the email regex. -/
def emailChar (c : Char) : Bool := !c.isWhitespace && !(c == '@')

/-- Matcher for the regex fragment `[^\s@]*\.[^\s@]+$`: the scanned suffix
must consist of class characters, contain a literal `'.'`, and end with at
least one class character after that dot.  (A `'.'` may be consumed either
as the literal dot — provided a nonempty class-character tail follows — or
as an ordinary class character, mirroring the regex's backtracking.) -/
def matchDomTail : List Char → Bool
  | [] => false
  | c :: rest =>
    (c == '.' && !rest.isEmpty && rest.all emailChar) ||
    (emailChar c && matchDomTail rest)

/-- Matcher for `[^\s@]+\.[^\s@]+$` — the part after the `'@'`. -/
def matchAfterAt : List Char → Bool
  | [] => false
  | c :: rest => emailChar c && matchDomTail rest

/-- Matcher for `[^\s@]*@[^\s@]+\.[^\s@]+$` — the input after its first
character. -/
def matchLocalTail : List Char → Bool
  | [] => false
  | c :: rest =>
    (c == '@' && matchAfterAt rest) || (emailChar c && matchLocalTail rest)

/-- `isValidEmail` (Booking model lines 17-21): full-anchored match of
`/^[^\s@]+@[^\s@]+\.[^\s@]+$/`. -/
def isValidEmail (email : String) : Bool :=
  match email.data with
  | [] => false
  | c :: rest => emailChar c && matchLocalTail rest

/-- The spec's email grammar, written from its words: the string is
`localpart@domain`, localpart and domain each contain no whitespace and no
`'@'`, localpart is nonempty, and domain contains at least one `'.'` with
at least one character before it and after it. -/
def specEmailGrammar (cs : List Char) : Prop :=
  ∃ lp dom : List Char,
    cs = lp ++ '@' :: dom ∧ lp ≠ [] ∧
    (∀ c ∈ lp, ¬c.isWhitespace ∧ c ≠ '@') ∧
    (∀ c ∈ dom, ¬c.isWhitespace ∧ c ≠ '@') ∧
    ∃ u v : List Char, dom = u ++ '.' :: v ∧ u ≠ [] ∧ v ≠ []

/-- Errors thrown by the Booking pre-save hook. -/
inductive BookingErr
  /-- "Invalid email format for booking." -/
  | emailError
  /-- "Referenced event does not exist." -/
  | eventIdError
deriving DecidableEq

/-- Booking pre-save hook (lines 45-55): validate the email, then check
that the referenced event exists in the store (`Event.exists` modelled as
membership of the event id in the store's id list). -/
def bookingPreSave (eventIds : List Nat) (eventId : Nat) (email : String) :
    Except BookingErr Unit :=
  if !(isValidEmail email) then .error .emailError
  else if !(eventIds.contains eventId) then .error .eventIdError
  else .ok ()

/-- The store as the Booking save path sees it: existing event ids and the
persisted bookings. -/
structure BookingStore where
  events : List Nat
  bookings : List (Nat × String)
deriving DecidableEq

/-- Saving a booking: run the pre-save hook; a thrown error aborts the save
(no write), success appends the booking. -/
def saveBooking (st : BookingStore) (eventId : Nat) (email : String) :
    Except BookingErr BookingStore :=
  match bookingPreSave st.events eventId email with
  | .error e => .error e
  | .ok _ => .ok { st with bookings := st.bookings ++ [(eventId, email)] }

/- ------------------------------------------------------------------ -/
/- database/event.model.ts : normalizeTimeTo24 (lines 42-74)           -/
/- ------------------------------------------------------------------ -/

/-- `input.trim().toLowerCase()` (line 43). -/
def canonTime (s : String) : List Char := jsLower (jsTrim s.data)

/-- Full-anchored match of `/^(\d{1,2}):(\d{2})$/` (line 46), returning
the `parseInt` values of the two groups. -/
def hhmmMatch : List Char → Option (Nat × Nat)
  | [h1, ':', m1, m2] =>
    match readDigit h1, readDigit m1, readDigit m2 with
    | some a, some x, some y => some (a, 10 * x + y)
    | _, _, _ => none
  | [h1, h2, ':', m1, m2] =>
    match readDigit h1, readDigit h2, readDigit m1, readDigit m2 with
    | some a, some b, some x, some y => some (10 * a + b, 10 * x + y)
    | _, _, _, _ => none
  | _ => none

/-- Tail of the am/pm regex: `\s*(am|pm)$`. Returns the period
(`true` = pm) if the rest, after optional whitespace, is exactly
`am` or `pm`. -/
def periodTail (rest : List Char) : Option Bool :=
  match rest.dropWhile Char.isWhitespace with
  | ['a', 'm'] => some false
  | ['p', 'm'] => some true
  | _ => none

/-- Full-anchored match of `/^(\d{1,2})(?::(\d{2}))?\s*(am|pm)$/`
(line 56): hour group, minute group (`0` when absent, as in line 59),
and period.  A third leading digit, or a `':'` not followed by exactly
two digits and the period, makes the whole match fail, as it does for the
regex under backtracking. -/
def ampmMatch (cs : List Char) : Option (Nat × Nat × Bool) :=
  let ds := cs.takeWhile isDigitChar
  let rest := cs.dropWhile isDigitChar
  if ds.length = 0 ∨ 2 < ds.length then none
  else
    match rest with
    | ':' :: r2 =>
      match r2 with
      | a :: b :: r3 =>
        match readDigit a, readDigit b with
        | some x, some y =>
          match periodTail r3 with
          | some p => some (digitsVal ds, 10 * x + y, p)
          | none => none
        | _, _ => none
      | _ => none
    | _ =>
      match periodTail rest with
      | some p => some (digitsVal ds, 0, p)
      | none => none

/-- The two sequential adjustments of lines 61-62:
`if (period === "pm" && hour !== 12) hour += 12;`
`if (period === "am" && hour === 12) hour = 0;` -/
def to24Hour (isPM : Bool) (h : Nat) : Nat :=
  let h1 := if isPM ∧ h ≠ 12 then h + 12 else h
  if (!isPM) ∧ h1 = 12 then 0 else h1

/-- The template `` `${String(hh).padStart(2, "0")}:${String(mm).padStart(2, "0")}` ``. -/
def timeString (hh mm : Nat) : String :=
  String.mk (pad2c hh ++ ':' :: pad2c mm)

/-- The error thrown on line 71 (`Invalid time format: ...`). -/
inductive TimeErr
  | invalidTime
deriving DecidableEq

/-- The am/pm fallback branch of `normalizeTimeTo24` (lines 56-73). -/
def ampmBranch (cs : List Char) : Except TimeErr String :=
  match ampmMatch cs with
  | some (h, m, p) =>
    let hour := to24Hour p h
    if hour < 24 ∧ m < 60 then .ok (timeString hour m)
    else .error .invalidTime
  | none => .error .invalidTime

/-- `normalizeTimeTo24` (lines 42-74): try the 24-hour `H:MM`/`HH:MM`
grammar with its range check first; on no (in-range) match fall through to
the am/pm grammar; otherwise throw. -/
def normalizeTimeTo24 (input : String) : Except TimeErr String :=
  let cs := canonTime input
  match hhmmMatch cs with
  | some (hh, mm) =>
    if hh < 24 ∧ mm < 60 then .ok (timeString hh mm) else ampmBranch cs
  | none => ampmBranch cs

/- ------------------------------------------------------------------ -/
/- database/event.model.ts : normalizeDateToISO (lines 80-86)          -/
/- ------------------------------------------------------------------ -/

/-- The UTC field tuple a JavaScript `Date` renders through
`toISOString()`. -/
structure DateFields where
  year : Int
  month : Nat
  day : Nat
  hour : Nat
  minute : Nat
  second : Nat
  ms : Nat
deriving DecidableEq

/-- Field ranges any value produced by a JavaScript `Date` satisfies
(calendar fields in range, year within six decimal digits). -/
def validFields (f : DateFields) : Prop :=
  1 ≤ f.month ∧ f.month ≤ 12 ∧ 1 ≤ f.day ∧ f.day ≤ 31 ∧
  f.hour ≤ 23 ∧ f.minute ≤ 59 ∧ f.second ≤ 59 ∧ f.ms ≤ 999 ∧
  -999999 ≤ f.year ∧ f.year ≤ 999999

/-- The year field of `toISOString()`: four digits for years 0-9999,
otherwise the ECMAScript expanded form — a sign and six digits. -/
def yearChars (y : Int) : List Char :=
  if 0 ≤ y ∧ y ≤ 9999 then pad4c y.toNat
  else if y < 0 then '-' :: pad6c (-y).toNat
  else '+' :: pad6c y.toNat

/-- `Date.prototype.toISOString`: `YYYY-MM-DDTHH:mm:ss.sssZ` (with the
expanded year form outside 0-9999). -/
def toISOString (f : DateFields) : String :=
  String.mk (yearChars f.year ++ '-' ::
    (pad2c f.month ++ '-' ::
      (pad2c f.day ++ 'T' ::
        (pad2c f.hour ++ ':' ::
          (pad2c f.minute ++ ':' ::
            (pad2c f.second ++ '.' ::
              (pad3c f.ms ++ ['Z'])))))))

/-- Consume exactly `k` decimal digits, returning their value. -/
def readDigitsAux : Nat → Nat → List Char → Option (Nat × List Char)
  | 0, acc, cs => some (acc, cs)
  | _ + 1, _, [] => none
  | k + 1, acc, c :: cs =>
    match readDigit c with
    | some d => readDigitsAux k (10 * acc + d) cs
    | none => none

/-- Read a fixed-width decimal number. -/
def readN (k : Nat) (cs : List Char) : Option (Nat × List Char) :=
  readDigitsAux k 0 cs

/-- Consume one expected literal character. -/
def expectChar (c : Char) : List Char → Option (List Char)
  | [] => none
  | d :: rest => if d = c then some rest else none

/-- Year of the ECMAScript Date Time String Format: `YYYY`, or a sign and
six digits (a negative zero expanded year is invalid). -/
def parseYear (cs : List Char) : Option (Int × List Char) :=
  match cs with
  | [] => none
  | c :: rest =>
    if c = '+' then (readN 6 rest).map (fun p => ((p.1 : Int), p.2))
    else if c = '-' then
      match readN 6 rest with
      | some (n, r) => if n = 0 then none else some ((-(n : Int)), r)
      | none => none
    else (readN 4 cs).map (fun p => ((p.1 : Int), p.2))

/-- Parser for the full canonical `YYYY-MM-DDTHH:mm:ss.sssZ` instance of
the ECMAScript Date Time String Format (the exact shape `toISOString`
emits), with the format's field-range checks.  Other date expressions
accepted by `new Date(...)` are covered by the `fallback` parameter of
`normalizeDateToISO` below. -/
def parseCanonicalISO (s : String) : Option DateFields :=
  match parseYear s.data with
  | none => none
  | some (y, r1) =>
    match expectChar '-' r1 with
    | none => none
    | some r2 =>
      match readN 2 r2 with
      | none => none
      | some (mo, r3) =>
        if mo < 1 ∨ 12 < mo then none else
        match expectChar '-' r3 with
        | none => none
        | some r4 =>
          match readN 2 r4 with
          | none => none
          | some (d, r5) =>
            if d < 1 ∨ 31 < d then none else
            match expectChar 'T' r5 with
            | none => none
            | some r6 =>
              match readN 2 r6 with
              | none => none
              | some (hh, r7) =>
                if 23 < hh then none else
                match expectChar ':' r7 with
                | none => none
                | some r8 =>
                  match readN 2 r8 with
                  | none => none
                  | some (mi, r9) =>
                    if 59 < mi then none else
                    match expectChar ':' r9 with
                    | none => none
                    | some r10 =>
                      match readN 2 r10 with
                      | none => none
                      | some (ss, r11) =>
                        if 59 < ss then none else
                        match expectChar '.' r11 with
                        | none => none
                        | some r12 =>
                          match readN 3 r12 with
                          | none => none
                          | some (ms, r13) =>
                            match expectChar 'Z' r13 with
                            | none => none
                            | some r14 =>
                              match r14 with
                              | [] => some ⟨y, mo, d, hh, mi, ss, ms⟩
                              | _ => none

/-- `new Date(input)` (line 81): ECMAScript tries the Date Time String
Format first; anything else falls to implementation-defined parsing, which
the model takes as a parameter (`fallback`). `none` is an invalid date
(`Number.isNaN(dt.getTime())`). -/
def jsDateParse (fallback : String → Option DateFields) (s : String) :
    Option DateFields :=
  match parseCanonicalISO s with
  | some f => some f
  | none => fallback s

/-- The error thrown on line 83 (`Invalid date format: ...`). -/
inductive DateErr
  | invalidDate
deriving DecidableEq

/-- `normalizeDateToISO` (lines 80-86): parse with `new Date`, throw when
invalid, otherwise rewrite to `toISOString()`. -/
def normalizeDateToISO (fallback : String → Option DateFields) (s : String) :
    Except DateErr String :=
  match jsDateParse fallback s with
  | none => .error .invalidDate
  | some f => .ok (toISOString f)

/- ------------------------------------------------------------------ -/
/- database/event.model.ts : the Event pre-save hook (lines 130-177)   -/
/- ------------------------------------------------------------------ -/

/-- The Event document as the pre-save hook reads it.  `Option` models an
absent (or, collapsed with it, non-string / non-array) runtime value;
`slug` is a plain string with `""` standing for the falsy unset value the
hook's `!this.slug` tests for. -/
structure EventDoc where
  title : Option String
  slug : String
  description : Option String
  overview : Option String
  image : Option String
  venue : Option String
  location : Option String
  date : Option String
  time : Option String
  mode : Option String
  audience : Option String
  organizer : Option String
  agenda : Option (List String)
  tags : Option (List String)

/-- The check `typeof val === "string" && val.trim().length !== 0`
(negation of the failure test on line 148). -/
def presentString : Option String → Bool
  | none => false
  | some s => !(jsTrim s.data).isEmpty

/-- The `requiredStringFields` array (lines 132-144), paired with each
field's value, in source order. -/
def requiredStringFields (e : EventDoc) : List (String × Option String) :=
  [("title", e.title), ("description", e.description),
   ("overview", e.overview), ("image", e.image), ("venue", e.venue),
   ("location", e.location), ("date", e.date), ("time", e.time),
   ("mode", e.mode), ("audience", e.audience), ("organizer", e.organizer)]

/-- The first required string field (in source order) that fails the
check of lines 146-153, if any. -/
def firstMissing (e : EventDoc) : Option String :=
  (requiredStringFields e).findSome?
    (fun p => if presentString p.2 then none else some p.1)

/-- Errors thrown by the Event pre-save hook, tagged by offending field. -/
inductive EventErr
  /-- `Field "<name>" is required and must be a non-empty string.` -/
  | requiredField (name : String)
  /-- `"agenda" is required and must be a non-empty array of strings.` -/
  | emptyAgenda
  /-- `"tags" is required and must be a non-empty array of strings.` -/
  | emptyTags
  /-- rethrown `Invalid date format` -/
  | invalidDate
  /-- rethrown `Invalid time format` -/
  | invalidTime
deriving DecidableEq

/-- The Event pre-save hook (lines 130-177): validate the eleven required
string fields in order, then `agenda`, then `tags`; then regenerate the
slug when the title was modified or no slug is set; then normalize the
date and the time.  A thrown error aborts the save, so an error result
carries no record and nothing is persisted. -/
def eventPreSave (fallback : String → Option DateFields) (e : EventDoc)
    (isTitleModified : Bool) : Except EventErr EventDoc :=
  match firstMissing e with
  | some n => .error (.requiredField n)
  | none =>
    match e.agenda with
    | none => .error .emptyAgenda
    | some ag =>
      if ag.isEmpty then .error .emptyAgenda else
      match e.tags with
      | none => .error .emptyTags
      | some tg =>
        if tg.isEmpty then .error .emptyTags else
        let e1 := if isTitleModified || e.slug == "" then
            { e with slug := slugify (e.title.getD "") }
          else e
        match normalizeDateToISO fallback ((e1.date.getD "")) with
        | .error _ => .error .invalidDate
        | .ok dIso =>
          match normalizeTimeTo24 ((e1.time.getD "")) with
          | .error _ => .error .invalidTime
          | .ok t24 => .ok { e1 with date := some dIso, time := some t24 }

example : normalizeTimeTo24 "9:30 AM" = .ok "09:30" := rfl
example : normalizeTimeTo24 "9:30pm" = .ok "21:30" := rfl
example : normalizeTimeTo24 "12 am" = .ok "00:00" := rfl
example : normalizeTimeTo24 "12 pm" = .ok "12:00" := rfl
example : normalizeTimeTo24 "25:00" = .error .invalidTime := rfl
example : normalizeTimeTo24 "13:30 am" = .ok "13:30" := rfl
example : normalizeTimeTo24 "21:00" = .ok "21:00" := rfl
example : normalizeDateToISO (fun _ => none) "2020-01-02T03:04:05.678Z" =
    .ok "2020-01-02T03:04:05.678Z" := rfl
example : normalizeDateToISO (fun _ => none) "not-a-date" = .error .invalidDate := rfl
example : normalizeDateToISO (fun _ => none) "+020020-01-02T03:04:05.678Z" =
    .ok "+020020-01-02T03:04:05.678Z" := rfl

example : slugify "Hello, World!" = "hello-world" := by decide
example : slugify "  Foo_Bar--Baz  " = "foo-bar-baz" := by decide
example : isValidEmail "a@b.com" = true := by decide
example : isValidEmail "a@b" = false := by decide
example : isValidEmail "a b@c.com" = false := by decide
example : isValidEmail "@c.com" = false := by decide

/- ------------------------------------------------------------------ -/
/- Helper lemmas                                                       -/
/- ------------------------------------------------------------------ -/

theorem readDigit_digitChar {k : Nat} (h : k < 10) : readDigit (digitChar k) = some k := by
  interval_cases k <;> rfl

theorem digitChar_not_ws {k : Nat} (h : k < 10) :
    (digitChar k).isWhitespace = false := by
  interval_cases k <;> rfl

theorem digitChar_toLower {k : Nat} (h : k < 10) :
    (digitChar k).toLower = digitChar k := by
  interval_cases k <;> rfl

theorem digitChar_ne_plus {k : Nat} (h : k < 10) : digitChar k ≠ '+' := by
  interval_cases k <;> decide

theorem digitChar_ne_minus {k : Nat} (h : k < 10) : digitChar k ≠ '-' := by
  interval_cases k <;> decide

/- ------------------------------------------------------------------ -/
/- C2 : returning the cached live handle                               -/
/- ------------------------------------------------------------------ -/

/-- C2 (amended): provided a connection URI is configured (nonempty after
trimming), a call that finds a live handle in the cache returns exactly
that handle with the world unchanged (no new I/O, no failure); and the
missing-URI ConfigError is raised, before any I/O, exactly when the
trimmed URI is empty — even if a live handle already exists, because the
URI check precedes the cache check. -/
theorem C2_cached_handle :
    (∀ env w h, trimmedUri env ≠ none → w.cache.conn = some h →
        connectToDatabaseSync env w = (w, .returnedConn h)) ∧
    (∀ env w, trimmedUri env = none →
        connectToDatabaseSync env w = (w, .configFailed)) := by
  constructor
  · intro env w h hu hc
    rcases henv : trimmedUri env with _ | u
    · exact absurd henv hu
    · simp [connectToDatabaseSync, henv, hc]
  · intro env w hu
    simp [connectToDatabaseSync, hu]

/-- Witness for C2: a cached handle 5 is returned unchanged when the URI
is configured. -/
theorem C2_cached_handle_witness :
    connectToDatabaseSync (some "mongodb://db") ⟨⟨some 5, none⟩, 0, 0⟩ =
      (⟨⟨some 5, none⟩, 0, 0⟩, .returnedConn 5) :=
  C2_cached_handle.1 (some "mongodb://db") ⟨⟨some 5, none⟩, 0, 0⟩ 5
    (by decide) rfl

/-- Counterexample to C2 as stated: the cache holds live handle 7, yet the
call raises the missing-URI ConfigError (the URI, being all whitespace,
trims to empty and that check runs first), instead of returning the
handle. -/
theorem C2_cached_handle_cex :
    connectToDatabaseSync (some " ") ⟨⟨some 7, none⟩, 0, 0⟩ =
      (⟨⟨some 7, none⟩, 0, 0⟩, .configFailed) ∧
    CallPhase.configFailed ≠ CallPhase.returnedConn 7 := by
  constructor
  · rfl
  · decide

/- ------------------------------------------------------------------ -/
/- C8 : a failed attempt clears the in-flight slot                     -/
/- ------------------------------------------------------------------ -/

/-- C8: when the connection attempt fails, the creator's catch clause
clears the in-flight promise slot, leaves the live-handle slot exactly as
it was (no handle is cached), and propagates the failure; and the next
call (with a configured URI and still no live handle) starts a fresh
connect attempt, recording a new promise. -/
theorem C8_failure_clears_inflight :
    ∀ w pid env, trimmedUri env ≠ none → w.cache.conn = none →
      connectToDatabaseResume w (.creator pid) (.error ()) =
        ({ w with cache := { conn := w.cache.conn, promise := none } }, .failed) ∧
      connectToDatabaseSync env
          { w with cache := { conn := w.cache.conn, promise := none } } =
        ({ cache := { conn := w.cache.conn, promise := some w.nextPromiseId },
           nextPromiseId := w.nextPromiseId + 1,
           connectCount := w.connectCount + 1 },
         .awaiting (.creator w.nextPromiseId)) := by
  intro w pid env hu hc
  constructor
  · rfl
  · rcases henv : trimmedUri env with _ | u
    · exact absurd henv hu
    · simp [connectToDatabaseSync, henv, hc]

/-- Witness for C8: after promise 3 fails, the slot is cleared and a
retry starts fresh attempt 4. -/
theorem C8_failure_clears_inflight_witness :
    connectToDatabaseResume ⟨⟨none, some 3⟩, 4, 1⟩ (.creator 3) (.error ()) =
      (⟨⟨none, none⟩, 4, 1⟩, .failed) ∧
    connectToDatabaseSync (some "mongodb://db") ⟨⟨none, none⟩, 4, 1⟩ =
      (⟨⟨none, some 4⟩, 5, 2⟩, .awaiting (.creator 4)) :=
  C8_failure_clears_inflight ⟨⟨none, some 3⟩, 4, 1⟩ 3 (some "mongodb://db")
    (by decide) rfl

/- ------------------------------------------------------------------ -/
/- C9 : concurrent callers are deduplicated                            -/
/- ------------------------------------------------------------------ -/

/-- With a promise already in the in-flight slot and no live handle, every
further synchronous call leaves the world unchanged and suspends on that
same promise. -/
theorem runSyncCalls_existing (env : Option String) (u : String)
    (henv : trimmedUri env = some u) :
    ∀ n (w : ConnWorld) pid, w.cache.conn = none → w.cache.promise = some pid →
      runSyncCalls env w n = (w, List.replicate n (.awaiting (.existing pid))) := by
  intro n
  induction n with
  | zero => intro w pid _ _; rfl
  | succ n ih =>
    intro w pid hc hp
    have hstep : connectToDatabaseSync env w = (w, .awaiting (.existing pid)) := by
      simp [connectToDatabaseSync, henv, hc, hp]
    simp [runSyncCalls, hstep, ih w pid hc hp, List.replicate_succ]

/-- C9: starting from an empty cache with a configured URI, `n + 1`
concurrent callers cause exactly one underlying connect operation; the
first caller records the new promise in the shared slot during its
synchronous prefix, every later caller observes it and awaits that same
promise, and when the promise fulfills with a handle every caller resumes
with that same handle (which is also stored in the live slot). -/
theorem C9_concurrent_dedup :
    ∀ env w n, trimmedUri env ≠ none → w.cache.conn = none →
      w.cache.promise = none →
      (runSyncCalls env w (n + 1)).1.connectCount = w.connectCount + 1 ∧
      (runSyncCalls env w (n + 1)).2 =
        .awaiting (.creator w.nextPromiseId) ::
          List.replicate n (.awaiting (.existing w.nextPromiseId)) ∧
      (∀ ph ∈ (runSyncCalls env w (n + 1)).2, ∃ ap, ph = .awaiting ap ∧
          ∀ w2 h, (connectToDatabaseResume w2 ap (.ok h)).2 = .ok h ∧
            (connectToDatabaseResume w2 ap (.ok h)).1.cache.conn = some h) := by
  intro env w n hu hc hp
  rcases henv : trimmedUri env with _ | u
  · exact absurd henv hu
  have hstep : connectToDatabaseSync env w =
      ({ cache := { conn := w.cache.conn, promise := some w.nextPromiseId },
         nextPromiseId := w.nextPromiseId + 1,
         connectCount := w.connectCount + 1 },
       .awaiting (.creator w.nextPromiseId)) := by
    simp [connectToDatabaseSync, henv, hc, hp]
  have hrest := runSyncCalls_existing env u henv n
    { cache := { conn := w.cache.conn, promise := some w.nextPromiseId },
      nextPromiseId := w.nextPromiseId + 1,
      connectCount := w.connectCount + 1 } w.nextPromiseId (by simpa using hc) rfl
  refine ⟨?_, ?_, ?_⟩
  · simp [runSyncCalls, hstep, hrest]
  · simp [runSyncCalls, hstep, hrest]
  · intro ph hph
    simp only [runSyncCalls, hstep, hrest] at hph
    rcases List.mem_cons.mp hph with h1 | h2
    · exact ⟨.creator w.nextPromiseId, h1, fun w2 h => ⟨rfl, rfl⟩⟩
    · have := List.eq_of_mem_replicate h2
      exact ⟨.existing w.nextPromiseId, this, fun w2 h => ⟨rfl, rfl⟩⟩

/-- Witness for C9: three concurrent callers from an empty cache — one
connect operation, phases creator-0 then two awaiters of promise 0. -/
theorem C9_concurrent_dedup_witness :
    (runSyncCalls (some "mongodb://db") ⟨⟨none, none⟩, 0, 0⟩ 3).1.connectCount = 1 ∧
    (runSyncCalls (some "mongodb://db") ⟨⟨none, none⟩, 0, 0⟩ 3).2 =
      [.awaiting (.creator 0), .awaiting (.existing 0), .awaiting (.existing 0)] := by
  have h := C9_concurrent_dedup (some "mongodb://db") ⟨⟨none, none⟩, 0, 0⟩ 2
    (by decide) rfl rfl
  exact ⟨h.1, h.2.1⟩

/- ------------------------------------------------------------------ -/
/- C10 : a blank URI is treated as absent                              -/
/- ------------------------------------------------------------------ -/

/-- C10: a connection-URI value that trims to the empty string is treated
exactly like an absent one: the trimmed-URI read yields the same result
as with no variable at all, and the call fails with the ConfigError path
before touching the cache or performing any I/O (world unchanged). -/
theorem C10_blank_uri_config_error :
    (∀ s, jsTrimS s = "" → trimmedUri (some s) = trimmedUri none) ∧
    (∀ s w, jsTrimS s = "" → connectToDatabaseSync (some s) w = (w, .configFailed)) ∧
    (∀ w, connectToDatabaseSync none w = (w, .configFailed)) := by
  refine ⟨?_, ?_, ?_⟩
  · intro s hs; simp [trimmedUri, hs]
  · intro s w hs; simp [connectToDatabaseSync, trimmedUri, hs]
  · intro w; rfl

/-- Witness for C10: a whitespace-only URI fails with the ConfigError
path and reads the same as an absent variable. -/
theorem C10_blank_uri_config_error_witness :
    connectToDatabaseSync (some "   ") ⟨⟨none, none⟩, 0, 0⟩ =
      (⟨⟨none, none⟩, 0, 0⟩, .configFailed) ∧
    trimmedUri (some "   ") = trimmedUri none :=
  ⟨C10_blank_uri_config_error.2.1 "   " ⟨⟨none, none⟩, 0, 0⟩ (by decide),
   C10_blank_uri_config_error.1 "   " (by decide)⟩

/- ------------------------------------------------------------------ -/
/- C3 : slug generation                                                -/
/- ------------------------------------------------------------------ -/

/-- C3: on a successful save the slug field of the stored record equals
the kebab derivation of the title exactly when the title was modified or
no slug was set, and is otherwise left untouched; the derivation
lowercases, trims, collapses runs outside `[a-z0-9]` to single dashes and
strips boundary dashes, with the two documented example values. -/
theorem C3_slug_generation :
    (∀ fb e tm r, eventPreSave fb e tm = .ok r →
        r.slug = if tm || e.slug == "" then slugify (e.title.getD "") else e.slug) ∧
    slugify "Hello, World!" = "hello-world" ∧
    slugify "  Foo_Bar--Baz  " = "foo-bar-baz" := by
  refine ⟨?_, by decide, by decide⟩
  intro fb e tm r hok
  unfold eventPreSave at hok
  repeat' split at hok
  all_goals simp_all
  all_goals (
    rcases hd : normalizeDateToISO fb (e.date.getD "") with derr | dIso <;>
      rw [hd] at hok <;>
    rcases ht : normalizeTimeTo24 (e.time.getD "") with terr | t24 <;>
      rw [ht] at hok <;>
    simp at hok <;> subst hok <;> simp)

/-- Witness for C3: modified title regenerates the slug. -/
theorem C3_slug_generation_witness :
    (EventDoc.mk (some "My Event") "my-event" (some "d") (some "o") (some "i")
        (some "v") (some "l") (some "2020-01-02T03:04:05.678Z") (some "09:30")
        (some "m") (some "a") (some "org") (some ["ag"]) (some ["t"])).slug =
      if (true || ("keep-me" == "")) then slugify ((some "My Event").getD "")
      else "keep-me" :=
  C3_slug_generation.1 (fun _ => none)
    (EventDoc.mk (some "My Event") "keep-me" (some "d") (some "o") (some "i")
      (some "v") (some "l") (some "2020-01-02T03:04:05.678Z") (some "9:30 am")
      (some "m") (some "a") (some "org") (some ["ag"]) (some ["t"]))
    true
    (EventDoc.mk (some "My Event") "my-event" (some "d") (some "o") (some "i")
      (some "v") (some "l") (some "2020-01-02T03:04:05.678Z") (some "09:30")
      (some "m") (some "a") (some "org") (some ["ag"]) (some ["t"]))
    rfl

/- ------------------------------------------------------------------ -/
/- C6 : booking referential integrity                                  -/
/- ------------------------------------------------------------------ -/

/-- C6 (amended): saving a booking whose email is valid but whose
referenced event is absent from the store fails with the
ReferenceError{eventId} path; a booking is persisted only when the
referenced event exists, and then the write is exactly the appended
booking; with a valid email and an existing event the hook succeeds.
(With an invalid email the save still fails and writes nothing, but with
the email ValidationError, which is checked first — see the
counterexample.) -/
theorem C6_booking_reference :
    (∀ st eid em, isValidEmail em = true → st.events.contains eid = false →
        saveBooking st eid em = .error .eventIdError) ∧
    (∀ st eid em st2, saveBooking st eid em = .ok st2 →
        st.events.contains eid = true ∧ st2.events = st.events ∧
        st2.bookings = st.bookings ++ [(eid, em)]) ∧
    (∀ evs eid em, isValidEmail em = true → evs.contains eid = true →
        bookingPreSave evs eid em = .ok ()) := by
  refine ⟨?_, ?_, ?_⟩
  · intro st eid em he hc
    have hm : eid ∉ st.events := by simpa using hc
    simp [saveBooking, bookingPreSave, he, hm]
  · intro st eid em st2 hok
    unfold saveBooking bookingPreSave at hok
    by_cases he : isValidEmail em
    · by_cases hm : eid ∈ st.events
      · simp [he, hm] at hok
        subst hok
        exact ⟨by simpa using hm, rfl, rfl⟩
      · simp [he, hm] at hok
    · simp [he] at hok
  · intro evs eid em he hc
    have hm : eid ∈ evs := by simpa using hc
    simp [bookingPreSave, he, hm]

/-- Witness for C6: valid email, empty store — the reference check fails. -/
theorem C6_booking_reference_witness :
    saveBooking ⟨[], []⟩ 0 "a@b.com" = .error .eventIdError :=
  C6_booking_reference.1 ⟨[], []⟩ 0 "a@b.com" rfl rfl

/-- Counterexample to C6 as stated: with an invalid email and a
nonexistent event the save fails with the email ValidationError, not the
ReferenceError the claim requires (the email check runs first). -/
theorem C6_booking_reference_cex :
    saveBooking ⟨[], []⟩ 0 "bad" = .error .emailError ∧
    BookingErr.emailError ≠ BookingErr.eventIdError := ⟨rfl, by decide⟩

/- ------------------------------------------------------------------ -/
/- C4 : validation order                                               -/
/- ------------------------------------------------------------------ -/


/-- Never-failing error inversion: the hook reports the required-field
error for `n` exactly when `n` is the first field (in source order) whose
value is absent or blank. -/
theorem eventPreSave_requiredField_iff (fb : String → Option DateFields)
    (e : EventDoc) (tm : Bool) (n : String) :
    eventPreSave fb e tm = .error (.requiredField n) ↔ firstMissing e = some n := by
  unfold eventPreSave
  cases hf : firstMissing e with
  | some m => simp
  | none =>
    simp only
    constructor
    · intro h
      exfalso
      repeat' split at h
      all_goals simp_all
    · intro h
      exact absurd h (by simp)

/-- The first failing required field, through `findSome?`. -/
theorem firstMissing_eq_some_iff (e : EventDoc) (n : String) :
    firstMissing e = some n ↔
      ∃ l1 v l2, requiredStringFields e = l1 ++ (n, v) :: l2 ∧
        presentString v = false ∧ ∀ p ∈ l1, presentString p.2 = true := by
  unfold firstMissing
  rw [List.findSome?_eq_some_iff]
  constructor
  · rintro ⟨l1, a, l2, heq, hfa, hn⟩
    have ha : presentString a.2 = false ∧ a.1 = n := by
      by_cases hp : presentString a.2
      · simp [hp] at hfa
      · simp [hp] at hfa
        exact ⟨by simpa using hp, hfa⟩
    have haeq : a = (n, a.2) := by
      rw [← ha.2]
    refine ⟨l1, a.2, l2, by rw [heq, ← haeq], ha.1, ?_⟩
    intro p hp
    have hfp := hn p hp
    by_cases hq : presentString p.2
    · exact hq
    · simp [hq] at hfp
  · rintro ⟨l1, v, l2, heq, hv, hprev⟩
    refine ⟨l1, (n, v), l2, heq, by simp [hv], ?_⟩
    intro x hx
    simp [hprev x hx]

/-- C4: the hook performs its checks in source order before any
normalization: it reports the required-field error for `n` exactly when
`n` heads the first failing entry of the ordered field list (all earlier
entries present and nonblank); with all string fields passing, an absent
or empty agenda fails with the agenda error, then an absent or empty tags
list with the tags error; and any successful save implies every one of
these checks passed — so on any check failure no normalized record is
produced and slug, date and time are untouched. -/
theorem C4_validation_order :
    (∀ fb e tm n, eventPreSave fb e tm = .error (.requiredField n) ↔
        ∃ l1 v l2, requiredStringFields e = l1 ++ (n, v) :: l2 ∧
          presentString v = false ∧ ∀ p ∈ l1, presentString p.2 = true) ∧
    (∀ fb e tm, firstMissing e = none → (e.agenda = none ∨ e.agenda = some []) →
        eventPreSave fb e tm = .error .emptyAgenda) ∧
    (∀ fb e tm ag, firstMissing e = none → e.agenda = some ag → ag ≠ [] →
        (e.tags = none ∨ e.tags = some []) →
        eventPreSave fb e tm = .error .emptyTags) ∧
    (∀ fb e tm r, eventPreSave fb e tm = .ok r →
        firstMissing e = none ∧ (∃ ag, e.agenda = some ag ∧ ag ≠ []) ∧
        (∃ tg, e.tags = some tg ∧ tg ≠ [])) := by
  refine ⟨?_, ?_, ?_, ?_⟩
  · intro fb e tm n
    rw [eventPreSave_requiredField_iff, firstMissing_eq_some_iff]
  · intro fb e tm hf hag
    rcases hag with hag | hag <;> simp [eventPreSave, hf, hag]
  · intro fb e tm ag hf hag hne htg
    rcases htg with htg | htg <;>
      simp [eventPreSave, hf, hag, htg, List.isEmpty_iff, hne]
  · intro fb e tm r hok
    unfold eventPreSave at hok
    repeat' split at hok
    all_goals simp_all

/-- Witness for C4: all string fields present but `agenda` absent — the
save fails with the agenda error. -/
theorem C4_validation_order_witness :
    eventPreSave (fun _ => none)
      (EventDoc.mk (some "t") "s" (some "d") (some "o") (some "i") (some "v")
        (some "l") (some "dt") (some "tm") (some "mo") (some "au") (some "or")
        none (some ["x"])) true = .error .emptyAgenda :=
  C4_validation_order.2.1 (fun _ => none)
    (EventDoc.mk (some "t") "s" (some "d") (some "o") (some "i") (some "v")
      (some "l") (some "dt") (some "tm") (some "mo") (some "au") (some "or")
      none (some ["x"])) true rfl (Or.inl rfl)

/- ------------------------------------------------------------------ -/
/- C5 : the email grammar                                              -/
/- ------------------------------------------------------------------ -/

theorem emailChar_iff (c : Char) :
    emailChar c = true ↔ ¬c.isWhitespace ∧ c ≠ '@' := by
  simp [emailChar]

theorem emailChar_dot : emailChar '.' = true := rfl

theorem isEmpty_false_of_ne {α : Type _} {l : List α} (h : l ≠ []) :
    l.isEmpty = false := by
  cases l with
  | nil => exact absurd rfl h
  | cons a as => rfl

theorem all_emailChar_iff (l : List Char) :
    l.all emailChar = true ↔ ∀ c ∈ l, ¬c.isWhitespace ∧ c ≠ '@' := by
  rw [List.all_eq_true]
  constructor
  · intro h c hc; exact (emailChar_iff c).mp (h c hc)
  · intro h c hc; exact (emailChar_iff c).mpr (h c hc)

/-- Language of the matcher for `[^\s@]*\.[^\s@]+$`. -/
theorem matchDomTail_iff (cs : List Char) :
    matchDomTail cs = true ↔
      ∃ u v, cs = u ++ '.' :: v ∧ u.all emailChar = true ∧ v ≠ [] ∧
        v.all emailChar = true := by
  induction cs with
  | nil =>
    constructor
    · intro h; simp [matchDomTail] at h
    · rintro ⟨u, v, heq, -, -, -⟩
      exact absurd heq (by simp)
  | cons c rest ih =>
    constructor
    · intro h
      rw [matchDomTail] at h
      rcases Bool.or_eq_true_iff.mp h with hA | hB
      · obtain ⟨h1, h2⟩ := Bool.and_eq_true_iff.mp hA
        obtain ⟨hdot, hne⟩ := Bool.and_eq_true_iff.mp h1
        refine ⟨[], rest, ?_, rfl, ?_, h2⟩
        · simp [beq_iff_eq.mp hdot]
        · intro hv; subst hv; simp at hne
      · obtain ⟨hc, hm⟩ := Bool.and_eq_true_iff.mp hB
        obtain ⟨u, v, heq, hu, hv, hva⟩ := ih.mp hm
        refine ⟨c :: u, v, by rw [heq]; rfl, ?_, hv, hva⟩
        rw [List.all_cons]
        exact Bool.and_eq_true_iff.mpr ⟨hc, hu⟩
    · rintro ⟨u, v, heq, hu, hv, hva⟩
      rw [matchDomTail]
      cases u with
      | nil =>
        simp only [List.nil_append] at heq
        injection heq with h1 h2
        subst h1; subst h2
        apply Bool.or_eq_true_iff.mpr; left
        simp [hva, isEmpty_false_of_ne hv]
      | cons a u' =>
        injection heq with h1 h2
        subst h1
        apply Bool.or_eq_true_iff.mpr; right
        rw [List.all_cons] at hu
        obtain ⟨hc, hu'⟩ := Bool.and_eq_true_iff.mp hu
        exact Bool.and_eq_true_iff.mpr ⟨hc, ih.mpr ⟨u', v, h2, hu', hv, hva⟩⟩

/-- Language of the matcher for `[^\s@]+\.[^\s@]+$`. -/
theorem matchAfterAt_iff (cs : List Char) :
    matchAfterAt cs = true ↔
      ∃ u v, cs = u ++ '.' :: v ∧ u ≠ [] ∧ u.all emailChar = true ∧ v ≠ [] ∧
        v.all emailChar = true := by
  cases cs with
  | nil =>
    constructor
    · intro h; simp [matchAfterAt] at h
    · rintro ⟨u, v, heq, -, -, -, -⟩
      exact absurd heq (by simp)
  | cons c rest =>
    rw [matchAfterAt]
    constructor
    · intro h
      obtain ⟨hc, hm⟩ := Bool.and_eq_true_iff.mp h
      obtain ⟨u, v, heq, hu, hv, hva⟩ := (matchDomTail_iff rest).mp hm
      refine ⟨c :: u, v, by rw [heq]; rfl, by simp, ?_, hv, hva⟩
      rw [List.all_cons]
      exact Bool.and_eq_true_iff.mpr ⟨hc, hu⟩
    · rintro ⟨u, v, heq, hune, hu, hv, hva⟩
      cases u with
      | nil => exact absurd rfl hune
      | cons a u' =>
        injection heq with h1 h2
        subst h1
        rw [List.all_cons] at hu
        obtain ⟨hc, hu'⟩ := Bool.and_eq_true_iff.mp hu
        exact Bool.and_eq_true_iff.mpr
          ⟨hc, (matchDomTail_iff rest).mpr ⟨u', v, h2, hu', hv, hva⟩⟩

/-- Language of the matcher for `[^\s@]*@[^\s@]+\.[^\s@]+$`. -/
theorem matchLocalTail_iff (cs : List Char) :
    matchLocalTail cs = true ↔
      ∃ a d, cs = a ++ '@' :: d ∧ a.all emailChar = true ∧
        matchAfterAt d = true := by
  induction cs with
  | nil =>
    constructor
    · intro h; simp [matchLocalTail] at h
    · rintro ⟨a, d, heq, -, -⟩
      exact absurd heq (by simp)
  | cons c rest ih =>
    constructor
    · intro h
      rw [matchLocalTail] at h
      rcases Bool.or_eq_true_iff.mp h with hA | hB
      · obtain ⟨hat, hafter⟩ := Bool.and_eq_true_iff.mp hA
        exact ⟨[], rest, by simp [beq_iff_eq.mp hat], rfl, hafter⟩
      · obtain ⟨hc, hm⟩ := Bool.and_eq_true_iff.mp hB
        obtain ⟨a, d, heq, ha, hafter⟩ := ih.mp hm
        refine ⟨c :: a, d, by rw [heq]; rfl, ?_, hafter⟩
        rw [List.all_cons]
        exact Bool.and_eq_true_iff.mpr ⟨hc, ha⟩
    · rintro ⟨a, d, heq, ha, hafter⟩
      rw [matchLocalTail]
      cases a with
      | nil =>
        simp only [List.nil_append] at heq
        injection heq with h1 h2
        subst h1; subst h2
        apply Bool.or_eq_true_iff.mpr; left
        simp [hafter]
      | cons b a' =>
        injection heq with h1 h2
        subst h1
        apply Bool.or_eq_true_iff.mpr; right
        rw [List.all_cons] at ha
        obtain ⟨hc, ha'⟩ := Bool.and_eq_true_iff.mp ha
        exact Bool.and_eq_true_iff.mpr ⟨hc, ih.mpr ⟨a', d, h2, ha', hafter⟩⟩

/-- The regex `/^[^\s@]+@[^\s@]+\.[^\s@]+$/` accepts exactly the strings
of the spec's grammar. -/
theorem isValidEmail_iff_spec (s : String) :
    isValidEmail s = true ↔ specEmailGrammar s.data := by
  unfold isValidEmail specEmailGrammar
  cases hs : s.data with
  | nil =>
    constructor
    · intro h; simp at h
    · rintro ⟨lp, dom, heq, -, -, -, -⟩
      exact absurd heq (by simp)
  | cons c rest =>
    constructor
    · intro h
      obtain ⟨hc, hm⟩ := Bool.and_eq_true_iff.mp h
      obtain ⟨a, d, heq, ha, hafter⟩ := (matchLocalTail_iff rest).mp hm
      obtain ⟨u, v, hdeq, hune, hu, hv, hva⟩ := (matchAfterAt_iff d).mp hafter
      refine ⟨c :: a, d, by rw [heq]; rfl, by simp, ?_, ?_, u, v, hdeq, hune, hv⟩
      · refine (all_emailChar_iff (c :: a)).mp ?_
        rw [List.all_cons]
        exact Bool.and_eq_true_iff.mpr ⟨hc, ha⟩
      · refine (all_emailChar_iff d).mp ?_
        rw [hdeq, List.all_append, List.all_cons]
        simp [hu, hva, emailChar_dot]
    · rintro ⟨lp, dom, heq, hlpne, hlp, hdom, u, v, hdeq, hune, hvne⟩
      cases lp with
      | nil => exact absurd rfl hlpne
      | cons b a =>
        injection heq with h1 h2
        subst h1
        have hall := (all_emailChar_iff (c :: a)).mpr hlp
        rw [List.all_cons] at hall
        obtain ⟨hc, ha⟩ := Bool.and_eq_true_iff.mp hall
        have hdall := (all_emailChar_iff dom).mpr hdom
        rw [hdeq, List.all_append, List.all_cons] at hdall
        obtain ⟨hu, hrest2⟩ := Bool.and_eq_true_iff.mp hdall
        obtain ⟨-, hv⟩ := Bool.and_eq_true_iff.mp hrest2
        refine Bool.and_eq_true_iff.mpr ⟨hc, (matchLocalTail_iff rest).mpr
          ⟨a, dom, h2, ha, (matchAfterAt_iff dom).mpr
            ⟨u, v, hdeq, hune, hu, hvne, hv⟩⟩⟩

/-- C5: booking email validation accepts exactly the strings of the form
`localpart@domain` with no whitespace and no second `'@'`, the domain
containing an interior `'.'` (a character on each side); an invalid email
makes the pre-save hook fail with the email ValidationError; and the four
documented examples behave as stated. -/
theorem C5_email_grammar :
    (∀ s : String, isValidEmail s = true ↔ specEmailGrammar s.data) ∧
    (∀ evs eid em, isValidEmail em = false →
        bookingPreSave evs eid em = .error .emailError) ∧
    isValidEmail "a@b.com" = true ∧ isValidEmail "a@b" = false ∧
    isValidEmail "a b@c.com" = false ∧ isValidEmail "@c.com" = false := by
  refine ⟨isValidEmail_iff_spec, ?_, by decide, by decide, by decide, by decide⟩
  intro evs eid em he
  simp [bookingPreSave, he]

/-- Witness for C5: the no-dot address is rejected by the hook. -/
theorem C5_email_grammar_witness :
    bookingPreSave [] 0 "a@b" = .error .emailError :=
  C5_email_grammar.2.1 [] 0 "a@b" rfl

/- ------------------------------------------------------------------ -/
/- C1 : time normalization grammar                                     -/
/- ------------------------------------------------------------------ -/

/-- The am/pm fallback branch succeeds exactly on an am/pm match whose
converted hour is below 24 with minute below 60. -/
theorem ampmBranch_ok_iff (cs : List Char) :
    (∃ r, ampmBranch cs = .ok r) ↔
      ∃ h m p, ampmMatch cs = some (h, m, p) ∧ to24Hour p h < 24 ∧ m < 60 := by
  cases ha : ampmMatch cs with
  | none => simp [ampmBranch, ha]
  | some v =>
    obtain ⟨h, m, p⟩ := v
    simp only [ampmBranch, ha]
    by_cases hc : to24Hour p h < 24 ∧ m < 60
    · rw [if_pos hc]
      constructor
      · intro _; exact ⟨h, m, p, rfl, hc.1, hc.2⟩
      · intro _; exact ⟨timeString (to24Hour p h) m, rfl⟩
    · rw [if_neg hc]
      constructor
      · rintro ⟨r, hr⟩
        exact absurd hr (by simp)
      · rintro ⟨h', m', p', h1, h2, h3⟩
        have h4 : h = h' ∧ m = m' ∧ p = p' := by
          simpa [Prod.mk.injEq] using h1
        obtain ⟨rfl, rfl, rfl⟩ := h4
        exact absurd ⟨h2, h3⟩ hc

/-- C1 (amended): time normalization accepts exactly the 24-hour
`H:MM`/`HH:MM` grammar with hour below 24 and minute below 60, and the
12-hour `H[:MM] am|pm` grammar (case-insensitive, minute 0 when absent,
"12 am" mapping to hour 0 and "12 pm" to hour 12) whenever the CONVERTED
24-hour value is below 24 and the minute below 60 — so am accepts written
hours 0-23 (not just 1-12; in particular `"13:30 am" -> "13:30"` and
`"0 am" -> "00:00"`) and pm accepts written hours 0-12; every accepted
input is rewritten to the zero-padded `HH:MM` of the converted value and
everything else fails with the time ValidationError. -/
theorem C1_time_normalization :
    (∀ s : String, (∃ r, normalizeTimeTo24 s = .ok r) ↔
        ((∃ hh mm, hhmmMatch (canonTime s) = some (hh, mm) ∧ hh < 24 ∧ mm < 60) ∨
         (∃ h m p, ampmMatch (canonTime s) = some (h, m, p) ∧
            to24Hour p h < 24 ∧ m < 60))) ∧
    (∀ s hh mm, hhmmMatch (canonTime s) = some (hh, mm) → hh < 24 → mm < 60 →
        normalizeTimeTo24 s = .ok (timeString hh mm)) ∧
    (∀ s h m p, hhmmMatch (canonTime s) = none →
        ampmMatch (canonTime s) = some (h, m, p) → to24Hour p h < 24 → m < 60 →
        normalizeTimeTo24 s = .ok (timeString (to24Hour p h) m)) ∧
    (∀ s, (¬ ∃ r, normalizeTimeTo24 s = .ok r) →
        normalizeTimeTo24 s = .error .invalidTime) ∧
    normalizeTimeTo24 "9:30 AM" = .ok "09:30" ∧
    normalizeTimeTo24 "9:30pm" = .ok "21:30" ∧
    normalizeTimeTo24 "12 am" = .ok "00:00" ∧
    normalizeTimeTo24 "12 pm" = .ok "12:00" ∧
    normalizeTimeTo24 "25:00" = .error .invalidTime ∧
    normalizeTimeTo24 "13:30 am" = .ok "13:30" := by
  refine ⟨?_, ?_, ?_, ?_, rfl, rfl, rfl, rfl, rfl, rfl⟩
  · intro s
    unfold normalizeTimeTo24
    cases hm : hhmmMatch (canonTime s) with
    | none => simp [hm, ampmBranch_ok_iff]
    | some v =>
      obtain ⟨hh, mm⟩ := v
      by_cases hc : hh < 24 ∧ mm < 60
      · simp [hm, hc]
        exact Or.inl ⟨hh, mm, ⟨rfl, rfl⟩, hc.1, hc.2⟩
      · simp only [hm, if_neg hc]
        rw [ampmBranch_ok_iff]
        constructor
        · intro h; right; exact h
        · rintro (⟨hh', mm', h1, h2, h3⟩ | h)
          · rw [Option.some_inj, Prod.mk.injEq] at h1
            obtain ⟨e1, e2⟩ := h1
            exact absurd ⟨by omega, by omega⟩ hc
          · exact h
  · intro s hh mm h1 h2 h3
    unfold normalizeTimeTo24
    simp [h1, h2, h3]
  · intro s h m p hnone hsome h1 h2
    unfold normalizeTimeTo24
    simp [hnone, ampmBranch, hsome, h1, h2]
  · intro s hne
    cases hr : normalizeTimeTo24 s with
    | ok r => exact absurd ⟨r, hr⟩ hne
    | error e => cases e; rfl

/-- Witness for C1: `"9:30"` matches the 24-hour grammar in range and is
rewritten to the padded form. -/
theorem C1_time_normalization_witness :
    normalizeTimeTo24 "9:30" = .ok (timeString 9 30) :=
  C1_time_normalization.2.1 "9:30" 9 30 rfl (by omega) (by omega)

/-- Counterexample to C1 as stated: `"13:30 am"` does not fail — the
am/pm branch only checks the converted hour, which is 13 and in range, so
the call succeeds with `"13:30"`. -/
theorem C1_time_normalization_cex :
    normalizeTimeTo24 "13:30 am" = .ok "13:30" ∧
    ∀ e, normalizeTimeTo24 "13:30 am" ≠ .error e := by
  refine ⟨rfl, ?_⟩
  intro e h
  rw [show normalizeTimeTo24 "13:30 am" = .ok "13:30" from rfl] at h
  exact Except.noConfusion h

/- ------------------------------------------------------------------ -/
/- C7 : idempotence of time and date normalization                     -/
/- ------------------------------------------------------------------ -/

/-- Outputs of the am/pm branch are padded in-range `HH:MM` strings. -/
theorem ampmBranch_ok_shape {cs : List Char} {t : String}
    (h : ampmBranch cs = .ok t) :
    ∃ hh mm, hh < 24 ∧ mm < 60 ∧ t = timeString hh mm := by
  unfold ampmBranch at h
  cases ha : ampmMatch cs with
  | none => simp [ha] at h
  | some v =>
    obtain ⟨x, m, p⟩ := v
    simp only [ha] at h
    by_cases hc : to24Hour p x < 24 ∧ m < 60
    · rw [if_pos hc] at h
      injection h with h'
      exact ⟨to24Hour p x, m, hc.1, hc.2, h'.symm⟩
    · rw [if_neg hc] at h
      exact absurd h (by simp)

/-- Every accepted time is rewritten to a padded `HH:MM` with in-range
components. -/
theorem normalizeTimeTo24_ok_shape {s t : String}
    (h : normalizeTimeTo24 s = .ok t) :
    ∃ hh mm, hh < 24 ∧ mm < 60 ∧ t = timeString hh mm := by
  unfold normalizeTimeTo24 at h
  cases hm : hhmmMatch (canonTime s) with
  | none =>
    simp only [hm] at h
    exact ampmBranch_ok_shape h
  | some v =>
    obtain ⟨a, b⟩ := v
    simp only [hm] at h
    by_cases hc : a < 24 ∧ b < 60
    · rw [if_pos hc] at h
      injection h with h'
      exact ⟨a, b, hc.1, hc.2, h'.symm⟩
    · rw [if_neg hc] at h
      exact ampmBranch_ok_shape h

theorem colon_not_ws : (':').isWhitespace = false := rfl

theorem colon_toLower : (':').toLower = ':' := rfl

/-- The canonical `HH:MM` output is untouched by trim and lowercase. -/
theorem canonTime_timeString {hh mm : Nat} (h1 : hh < 100) (h2 : mm < 100) :
    canonTime (timeString hh mm) = (timeString hh mm).data := by
  have d1 := digitChar_not_ws (show hh / 10 < 10 by omega)
  have d2 := digitChar_not_ws (show hh % 10 < 10 by omega)
  have d3 := digitChar_not_ws (show mm / 10 < 10 by omega)
  have d4 := digitChar_not_ws (show mm % 10 < 10 by omega)
  have l1 := digitChar_toLower (show hh / 10 < 10 by omega)
  have l2 := digitChar_toLower (show hh % 10 < 10 by omega)
  have l3 := digitChar_toLower (show mm / 10 < 10 by omega)
  have l4 := digitChar_toLower (show mm % 10 < 10 by omega)
  simp [canonTime, timeString, pad2c, jsTrim, jsLower, List.dropWhile_cons,
    d1, d2, d3, d4, l1, l2, l3, l4, colon_not_ws, colon_toLower]

/-- The canonical `HH:MM` output re-matches the 24-hour grammar with the
same components. -/
theorem hhmmMatch_timeString {hh mm : Nat} (h1 : hh < 100) (h2 : mm < 100) :
    hhmmMatch ((timeString hh mm).data) = some (hh, mm) := by
  have d1 := readDigit_digitChar (show hh / 10 < 10 by omega)
  have d2 := readDigit_digitChar (show hh % 10 < 10 by omega)
  have d3 := readDigit_digitChar (show mm / 10 < 10 by omega)
  have d4 := readDigit_digitChar (show mm % 10 < 10 by omega)
  simp [timeString, pad2c, hhmmMatch, d1, d2, d3, d4]
  omega

/-- Time normalization is idempotent on its canonical outputs. -/
theorem normalizeTimeTo24_idem {s t : String}
    (h : normalizeTimeTo24 s = .ok t) : normalizeTimeTo24 t = .ok t := by
  obtain ⟨hh, mm, h1, h2, rfl⟩ := normalizeTimeTo24_ok_shape h
  simp only [normalizeTimeTo24]
  rw [canonTime_timeString (by omega) (by omega),
    hhmmMatch_timeString (by omega) (by omega)]
  simp [h1, h2]

theorem readDigit_le {c : Char} {d : Nat} (h : readDigit c = some d) : d ≤ 9 := by
  unfold readDigit at h
  split at h
  · rename_i hc
    injection h with h'
    omega
  · exact absurd h (by simp)

theorem readDigitsAux_lt :
    ∀ (k acc : Nat) (cs : List Char) (n : Nat) (r : List Char),
      readDigitsAux k acc cs = some (n, r) → n < (acc + 1) * 10 ^ k := by
  intro k
  induction k with
  | zero =>
    intro acc cs n r h
    simp [readDigitsAux] at h
    omega
  | succ k ih =>
    intro acc cs n r h
    cases cs with
    | nil => simp [readDigitsAux] at h
    | cons c cs' =>
      cases hd : readDigit c with
      | none => simp [readDigitsAux, hd] at h
      | some d =>
        simp only [readDigitsAux, hd] at h
        have hb := ih (10 * acc + d) cs' n r h
        have hd9 := readDigit_le hd
        have hstep : 10 * acc + d + 1 ≤ 10 * (acc + 1) := by omega
        have hmul : (10 * acc + d + 1) * 10 ^ k ≤ 10 * (acc + 1) * 10 ^ k :=
          Nat.mul_le_mul_right _ hstep
        have hpow : 10 * (acc + 1) * 10 ^ k = (acc + 1) * 10 ^ (k + 1) := by ring
        exact Nat.lt_of_lt_of_le hb (le_trans hmul (le_of_eq hpow))

theorem readN_lt {k n : Nat} {cs r : List Char}
    (h : readN k cs = some (n, r)) : n < 10 ^ k := by
  have := readDigitsAux_lt k 0 cs n r h
  simpa using this

theorem expectChar_cons_self (c : Char) (l : List Char) :
    expectChar c (c :: l) = some l := by simp [expectChar]

theorem readN_pad2 {n : Nat} (h : n < 100) (rest : List Char) :
    readN 2 (pad2c n ++ rest) = some (n, rest) := by
  have d1 := readDigit_digitChar (show n / 10 < 10 by omega)
  have d2 := readDigit_digitChar (show n % 10 < 10 by omega)
  simp [readN, pad2c, readDigitsAux, d1, d2]
  omega

theorem readN_pad3 {n : Nat} (h : n < 1000) (rest : List Char) :
    readN 3 (pad3c n ++ rest) = some (n, rest) := by
  have d1 := readDigit_digitChar (show n / 100 < 10 by omega)
  have d2 := readDigit_digitChar (show n / 10 % 10 < 10 by omega)
  have d3 := readDigit_digitChar (show n % 10 < 10 by omega)
  simp [readN, pad3c, readDigitsAux, d1, d2, d3]
  omega

theorem readN_pad4 {n : Nat} (h : n < 10000) (rest : List Char) :
    readN 4 (pad4c n ++ rest) = some (n, rest) := by
  have d1 := readDigit_digitChar (show n / 1000 < 10 by omega)
  have d2 := readDigit_digitChar (show n / 100 % 10 < 10 by omega)
  have d3 := readDigit_digitChar (show n / 10 % 10 < 10 by omega)
  have d4 := readDigit_digitChar (show n % 10 < 10 by omega)
  simp [readN, pad4c, readDigitsAux, d1, d2, d3, d4]
  omega

theorem readN_pad6 {n : Nat} (h : n < 1000000) (rest : List Char) :
    readN 6 (pad6c n ++ rest) = some (n, rest) := by
  have d1 := readDigit_digitChar (show n / 100000 < 10 by omega)
  have d2 := readDigit_digitChar (show n / 10000 % 10 < 10 by omega)
  have d3 := readDigit_digitChar (show n / 1000 % 10 < 10 by omega)
  have d4 := readDigit_digitChar (show n / 100 % 10 < 10 by omega)
  have d5 := readDigit_digitChar (show n / 10 % 10 < 10 by omega)
  have d6 := readDigit_digitChar (show n % 10 < 10 by omega)
  simp [readN, pad6c, readDigitsAux, d1, d2, d3, d4, d5, d6]
  omega

/-- A digit head sends `parseYear` to its four-digit branch. -/
theorem parseYear_of_digit {c : Char} {k : Nat} (hd : readDigit c = some k)
    (cs : List Char) :
    parseYear (c :: cs) = (readN 4 (c :: cs)).map (fun p => ((p.1 : Int), p.2)) := by
  have hplus : ¬c = '+' := by
    intro hcc
    rw [hcc, show readDigit '+' = none from rfl] at hd
    exact Option.noConfusion hd
  have hminus : ¬c = '-' := by
    intro hcc
    rw [hcc, show readDigit '-' = none from rfl] at hd
    exact Option.noConfusion hd
  simp [parseYear, hplus, hminus]

/-- `parseYear` inverts the year rendering for six-digit-bounded years. -/
theorem parseYear_yearChars {y : Int} (h1 : -999999 ≤ y) (h2 : y ≤ 999999)
    (rest : List Char) : parseYear (yearChars y ++ rest) = some (y, rest) := by
  unfold yearChars
  by_cases hy : 0 ≤ y ∧ y ≤ 9999
  · rw [if_pos hy]
    have hn : y.toNat < 10000 := by omega
    have hd := readDigit_digitChar (show y.toNat / 1000 < 10 by omega)
    calc parseYear (pad4c y.toNat ++ rest)
        = (readN 4 (pad4c y.toNat ++ rest)).map (fun p => ((p.1 : Int), p.2)) :=
          parseYear_of_digit hd _
      _ = some (y, rest) := by
          rw [readN_pad4 hn]
          simp [Int.toNat_of_nonneg hy.1]
  · rw [if_neg hy]
    by_cases hneg : y < 0
    · rw [if_pos hneg]
      have hn : (-y).toNat < 1000000 := by omega
      have hnz : ¬(-y).toNat = 0 := by omega
      rw [List.cons_append]
      simp only [parseYear, if_neg (show ¬('-' : Char) = '+' by decide),
        if_pos rfl, readN_pad6 hn, if_neg hnz]
      have he : (((-y).toNat : Int)) = -y := by omega
      rw [he]
      simp
    · rw [if_neg hneg]
      have hn : y.toNat < 1000000 := by omega
      rw [List.cons_append]
      simp only [parseYear, if_pos rfl, readN_pad6 hn]
      simp [Int.toNat_of_nonneg (show (0 : Int) ≤ y by omega)]

/-- Any year `parseYear` accepts is within six decimal digits. -/
theorem parseYear_range {cs : List Char} {y : Int} {r : List Char}
    (h : parseYear cs = some (y, r)) : -999999 ≤ y ∧ y ≤ 999999 := by
  cases cs with
  | nil => simp [parseYear] at h
  | cons c rest =>
    simp only [parseYear] at h
    by_cases hplus : c = '+'
    · rw [if_pos hplus] at h
      cases hr : readN 6 rest with
      | none => simp [hr] at h
      | some p =>
        obtain ⟨n, r'⟩ := p
        have hb := readN_lt hr
        norm_num at hb
        simp [hr] at h
        obtain ⟨ha, -⟩ := h
        omega
    · rw [if_neg hplus] at h
      by_cases hminus : c = '-'
      · rw [if_pos hminus] at h
        cases hr : readN 6 rest with
        | none => simp [hr] at h
        | some p =>
          obtain ⟨n, r'⟩ := p
          have hb := readN_lt hr
          norm_num at hb
          simp only [hr] at h
          by_cases hz : n = 0
          · rw [if_pos hz] at h
            exact absurd h (by simp)
          · rw [if_neg hz] at h
            have ha : -(n : Int) = y := by
              injection h with h'
              exact congrArg Prod.fst h'
            omega
      · rw [if_neg hminus] at h
        cases hr : readN 4 (c :: rest) with
        | none => simp [hr] at h
        | some p =>
          obtain ⟨n, r'⟩ := p
          have hb := readN_lt hr
          norm_num at hb
          simp [hr] at h
          obtain ⟨ha, -⟩ := h
          omega

/-- `toISOString` round-trips through the canonical-format parser for any
in-range field tuple. -/
theorem parseCanonicalISO_toISOString {f : DateFields} (hf : validFields f) :
    parseCanonicalISO (toISOString f) = some f := by
  obtain ⟨h1, h2, h3, h4, h5, h6, h7, h8, h9, h10⟩ := hf
  have hdata : (toISOString f).data = yearChars f.year ++ '-' ::
      (pad2c f.month ++ '-' :: (pad2c f.day ++ 'T' :: (pad2c f.hour ++ ':' ::
        (pad2c f.minute ++ ':' :: (pad2c f.second ++ '.' ::
          (pad3c f.ms ++ ['Z'])))))) := rfl
  unfold parseCanonicalISO
  rw [hdata, parseYear_yearChars h9 h10]
  simp only [expectChar_cons_self,
    readN_pad2 (show f.month < 100 by omega),
    readN_pad2 (show f.day < 100 by omega),
    readN_pad2 (show f.hour < 100 by omega),
    readN_pad2 (show f.minute < 100 by omega),
    readN_pad2 (show f.second < 100 by omega),
    readN_pad3 (show f.ms < 1000 by omega),
    if_neg (show ¬(f.month < 1 ∨ 12 < f.month) by omega),
    if_neg (show ¬(f.day < 1 ∨ 31 < f.day) by omega),
    if_neg (show ¬(23 < f.hour) by omega),
    if_neg (show ¬(59 < f.minute) by omega),
    if_neg (show ¬(59 < f.second) by omega)]

/-- Any field tuple the canonical-format parser accepts is in range. -/
theorem parseCanonicalISO_valid {s : String} {f : DateFields}
    (h : parseCanonicalISO s = some f) : validFields f := by
  unfold parseCanonicalISO at h
  cases hy : parseYear s.data with
  | none => simp [hy] at h
  | some p =>
    obtain ⟨y, r1⟩ := p
    simp only [hy] at h
    cases he1 : expectChar '-' r1 with
    | none => simp [he1] at h
    | some r2 =>
      simp only [he1] at h
      cases hm : readN 2 r2 with
      | none => simp [hm] at h
      | some pm =>
        obtain ⟨mo, r3⟩ := pm
        simp only [hm] at h
        by_cases hmo : mo < 1 ∨ 12 < mo
        · rw [if_pos hmo] at h; exact absurd h (by simp)
        rw [if_neg hmo] at h
        cases he2 : expectChar '-' r3 with
        | none => simp [he2] at h
        | some r4 =>
          simp only [he2] at h
          cases hd : readN 2 r4 with
          | none => simp [hd] at h
          | some pd =>
            obtain ⟨d, r5⟩ := pd
            simp only [hd] at h
            by_cases hdd : d < 1 ∨ 31 < d
            · rw [if_pos hdd] at h; exact absurd h (by simp)
            rw [if_neg hdd] at h
            cases he3 : expectChar 'T' r5 with
            | none => simp [he3] at h
            | some r6 =>
              simp only [he3] at h
              cases hh : readN 2 r6 with
              | none => simp [hh] at h
              | some ph =>
                obtain ⟨hrs, r7⟩ := ph
                simp only [hh] at h
                by_cases hhh : 23 < hrs
                · rw [if_pos hhh] at h; exact absurd h (by simp)
                rw [if_neg hhh] at h
                cases he4 : expectChar ':' r7 with
                | none => simp [he4] at h
                | some r8 =>
                  simp only [he4] at h
                  cases hmi : readN 2 r8 with
                  | none => simp [hmi] at h
                  | some pmi =>
                    obtain ⟨mi, r9⟩ := pmi
                    simp only [hmi] at h
                    by_cases hmimi : 59 < mi
                    · rw [if_pos hmimi] at h; exact absurd h (by simp)
                    rw [if_neg hmimi] at h
                    cases he5 : expectChar ':' r9 with
                    | none => simp [he5] at h
                    | some r10 =>
                      simp only [he5] at h
                      cases hss : readN 2 r10 with
                      | none => simp [hss] at h
                      | some pss =>
                        obtain ⟨ss, r11⟩ := pss
                        simp only [hss] at h
                        by_cases hssss : 59 < ss
                        · rw [if_pos hssss] at h; exact absurd h (by simp)
                        rw [if_neg hssss] at h
                        cases he6 : expectChar '.' r11 with
                        | none => simp [he6] at h
                        | some r12 =>
                          simp only [he6] at h
                          cases hms : readN 3 r12 with
                          | none => simp [hms] at h
                          | some pms =>
                            obtain ⟨ms, r13⟩ := pms
                            simp only [hms] at h
                            cases he7 : expectChar 'Z' r13 with
                            | none => simp [he7] at h
                            | some r14 =>
                              simp only [he7] at h
                              cases r14 with
                              | cons a as => simp at h
                              | nil =>
                                have hyr := parseYear_range hy
                                have hmsb := readN_lt hms
                                norm_num at hmsb
                                injection h with h'
                                subst h'
                                unfold validFields
                                dsimp only
                                refine ⟨?_, ?_, ?_, ?_, ?_, ?_, ?_, ?_, ?_, ?_⟩ <;>
                                  omega

/-- Date normalization is idempotent on its canonical outputs, for any
fallback parser that (like a real JavaScript `Date`) only produces
in-range field tuples. -/
theorem normalizeDateToISO_idem {fb : String → Option DateFields}
    (hfb : ∀ u f, fb u = some f → validFields f) {s t : String}
    (h : normalizeDateToISO fb s = .ok t) : normalizeDateToISO fb t = .ok t := by
  have hex : ∃ f, validFields f ∧ t = toISOString f := by
    unfold normalizeDateToISO jsDateParse at h
    cases hp : parseCanonicalISO s with
    | some f =>
      simp only [hp] at h
      injection h with h'
      exact ⟨f, parseCanonicalISO_valid hp, h'.symm⟩
    | none =>
      simp only [hp] at h
      cases hfs : fb s with
      | none => simp [hfs] at h
      | some f =>
        simp only [hfs] at h
        injection h with h'
        exact ⟨f, hfb s f hfs, h'.symm⟩
  obtain ⟨f, hvf, rfl⟩ := hex
  unfold normalizeDateToISO jsDateParse
  rw [parseCanonicalISO_toISOString hvf]

/-- C7: date and time normalization are idempotent on their canonical
outputs — for every accepted input, re-normalizing the produced canonical
string succeeds and returns the same string (for the date this holds for
any implementation-defined fallback parser producing in-range fields, the
canonical-format parse being attempted first). -/
theorem C7_normalization_idempotent :
    (∀ s t, normalizeTimeTo24 s = .ok t → normalizeTimeTo24 t = .ok t) ∧
    (∀ fb, (∀ u f, fb u = some f → validFields f) →
        ∀ s t, normalizeDateToISO fb s = .ok t → normalizeDateToISO fb t = .ok t) :=
  ⟨fun _ _ h => normalizeTimeTo24_idem h,
   fun _ hfb _ _ h => normalizeDateToISO_idem hfb h⟩

/-- Witness for C7: re-normalizing the outputs for `"9:30 am"` and an
already-canonical date string returns them unchanged. -/
theorem C7_normalization_idempotent_witness :
    normalizeTimeTo24 "09:30" = .ok "09:30" ∧
    normalizeDateToISO (fun _ => none) "2020-01-02T03:04:05.678Z" =
      .ok "2020-01-02T03:04:05.678Z" :=
  ⟨C7_normalization_idempotent.1 "9:30 am" "09:30" rfl,
   C7_normalization_idempotent.2 (fun _ => none)
     (fun u f h => by simp at h) "2020-01-02T03:04:05.678Z"
     "2020-01-02T03:04:05.678Z" rfl⟩
